import Mathlib

/-!
A shallow embedding of the attendance engine of `src/server.js` (vc-attend).

Modelling conventions:
* Timestamps are integer milliseconds since the Unix epoch; `new Date(x) - new Date(y)`
  in the source is millisecond subtraction, and comparisons of `Date` objects are
  integer comparisons of those milliseconds.
* JS objects used as string-keyed maps (`attendance.active`, `attendance.stats`, the
  local `stats` of `calculateVCStats` and of the export loop) are modelled as
  insertion-ordered association lists with unique keys: assigning to an existing key
  updates it in place, assigning a fresh key appends it at the end, which is exactly
  the enumeration order of `Object.entries` for string keys.
* A missing request field (JS `undefined`) is `Option.none`; indexing an object with
  an `undefined` key coerces the key to the string "undefined", as JS does.
* The HTTP/socket/Excel/Discord plumbing is outside the embedding; the functions
  below are the state transition of `app.post("/voice-event")` and the pure
  aggregation logic of `calculateVCStats` and of `app.get("/export/xlsx/:type")`.
-/

namespace VCAttend

/-- Milliseconds since the Unix epoch. -/
abbrev Timestamp := Int

/-- An entry of `attendance.history` (`src/server.js:72`): the object
`{ type, user, channel, time }`.  `user` and `channel` are optional because the
request body may omit them. -/
structure Event where
  type : String
  user : Option String
  channel : Option String
  time : Timestamp
deriving DecidableEq

/-- A value of `attendance.active` (`src/server.js:61`): `{ channel, joinedAt }`. -/
structure Session where
  channel : Option String
  joinedAt : Timestamp
deriving DecidableEq

/-- The aggregate state `attendance` (`src/server.js:27`). -/
structure Attendance where
  history : List Event
  active : List (String × Session)
  stats : List (String × Int)
deriving DecidableEq

/-- `{ history: [], active: {}, stats: {} }` (`src/server.js:27`). -/
def emptyAttendance : Attendance := ⟨[], [], []⟩

/-- JS coerces an `undefined` object key to the string "undefined". -/
def jsKey : Option String → String
  | some u => u
  | none => "undefined"

/-- `m[k] = v` on a JS object: overwrite an existing binding in place, otherwise
append a new binding at the end (insertion order). -/
def setKey {α : Type} : List (String × α) → String → α → List (String × α)
  | [], k, v => [(k, v)]
  | (k₁, v₁) :: rest, k, v =>
      if k₁ = k then (k, v) :: rest else (k₁, v₁) :: setKey rest k v

/-- `delete m[k]` on a JS object.  Keys are unique in maps built by `setKey`,
so dropping every binding of `k` coincides with deleting the one binding. -/
def delKey {α : Type} (m : List (String × α)) (k : String) : List (String × α) :=
  m.filter (fun p => p.1 != k)

/-- `m[k]` on a JS object: the value bound to `k`, if any. -/
def lookupKey {α : Type} : List (String × α) → String → Option α
  | [], _ => none
  | (k₁, v) :: rest, k => if k₁ = k then some v else lookupKey rest k

/-- `getSecondsDiff` (`src/server.js:44-46`):
`Math.floor((new Date(endTime) - new Date(startTime)) / 1000)`.
`Math.floor` of a real division is flooring integer division (`Int.fdiv`). -/
def getSecondsDiff (startTime endTime : Timestamp) : Int :=
  Int.fdiv (endTime - startTime) 1000

/-- `x.toString().padStart(2, "0")`. -/
def padStart2 (s : String) : String :=
  if s.length < 2 then String.mk (List.replicate (2 - s.length) '0') ++ s else s

/-- `formatDuration` (`src/server.js:48-53`).  JS `%` truncates toward zero
(`Int.tmod`), `Math.floor` of a division floors (`Int.fdiv`). -/
def formatDuration (sec : Int) : String :=
  let h := Int.fdiv sec 3600
  let m := Int.fdiv (Int.tmod sec 3600) 60
  let s := Int.tmod sec 60
  padStart2 (toString h) ++ ":" ++ padStart2 (toString m) ++ ":" ++ padStart2 (toString s)

/-- The request body of `app.post("/voice-event")` (`src/server.js:57`):
`const { type, user, channel } = req.body`. -/
structure Req where
  type : String
  user : Option String
  channel : Option String
deriving DecidableEq

/-- `attendance.stats[user]`, read the way the source reads it: absent counts
as `0` (`src/server.js:66`). -/
def statsValOf (a : Attendance) (u : String) : Int :=
  (lookupKey a.stats u).getD 0

/-- The state transition of `app.post("/voice-event")` (`src/server.js:56-78`),
with `timestamp` the server-assigned time of `src/server.js:58`:
* `join`: `attendance.active[user] = { channel, joinedAt: timestamp }`;
* `leave`: if `attendance.active[user]` exists, add
  `getSecondsDiff(joinedAt, timestamp)` to `attendance.stats[user]`
  (initialised to 0 when absent), then `delete attendance.active[user]`;
* any type: `unshift` the new event onto `history` and `pop` the last entry
  when the length exceeds 100. -/
def processVoiceEvent (a : Attendance) (r : Req) (timestamp : Timestamp) : Attendance :=
  let a₁ :=
    if r.type = "join" then
      { a with active := setKey a.active (jsKey r.user) ⟨r.channel, timestamp⟩ }
    else if r.type = "leave" then
      let a₂ :=
        match lookupKey a.active (jsKey r.user) with
        | some sess =>
            let newTotal :=
              (lookupKey a.stats (jsKey r.user)).getD 0 +
                getSecondsDiff sess.joinedAt timestamp
            { a with stats := setKey a.stats (jsKey r.user) newTotal }
        | none => a
      { a₂ with active := delKey a₂.active (jsKey r.user) }
    else a
  let hist := Event.mk r.type r.user r.channel timestamp :: a₁.history
  { a₁ with history := if hist.length > 100 then hist.dropLast else hist }

/-- Process a sequence of `(request, server-assigned timestamp)` pairs, oldest
first, starting from `a`. -/
def replayFrom (a : Attendance) (l : List (Req × Timestamp)) : Attendance :=
  l.foldl (fun st e => processVoiceEvent st e.1 e.2) a

/-- Replay from the empty state. -/
def replay (l : List (Req × Timestamp)) : Attendance :=
  replayFrom emptyAttendance l

/-- `(!filterFn || filterFn(h))` of `src/server.js:88`: an omitted filter
accepts everything. -/
def passesFilter (filterFn : Option (Event → Bool)) (h : Event) : Bool :=
  match filterFn with
  | none => true
  | some f => f h

/-- The `history.find(...)` of `src/server.js:89-91` (also `:148-150`): the first
entry of `full` that is a join for the same user with time at most `h.time`.
`history` is most-recent-first, so this is the join with the latest timestamp
not exceeding the leave's. -/
def joinFor (full : List Event) (h : Event) : Option Event :=
  full.find? (fun j => j.user == h.user && j.type == "join" && decide (j.time ≤ h.time))

/-- The accumulation loop of `calculateVCStats` (`src/server.js:87-97`): walk
`iter`, and for every leave that passes the filter and has a matching join in
`full`, add the pair's `getSecondsDiff` to that user's running total.  The
export loop (`src/server.js:146-156`) is the same loop with no filter. -/
def vcStatsLoop (full : List Event) (filterFn : Option (Event → Bool)) :
    List Event → List (String × Int) → List (String × Int)
  | [], stats => stats
  | h :: rest, stats =>
      let stats₁ :=
        if h.type == "leave" && passesFilter filterFn h then
          match joinFor full h with
          | some j =>
              setKey stats (jsKey h.user)
                ((lookupKey stats (jsKey h.user)).getD 0 + getSecondsDiff j.time h.time)
          | none => stats
        else stats
      vcStatsLoop full filterFn rest stats₁

/-- `a.localeCompare(b) < 0` for the plain ASCII strings compared here:
lexicographic comparison by character code (UTF-16 code units coincide with
code points on such strings). -/
def charListLt : List Char → List Char → Bool
  | [], [] => false
  | [], _ :: _ => true
  | _ :: _, [] => false
  | c₁ :: r₁, c₂ :: r₂ => if c₁ = c₂ then charListLt r₁ r₂ else decide (c₁ < c₂)

/-- Strict "less than" on formatted-duration strings, as `localeCompare`
orders them. -/
def strLt (a b : String) : Bool := charListLt a.data b.data

/-- One step of `.sort((a, b) => b.time.localeCompare(a.time))`: insert a row
into a descending-by-formatted-time sorted list, keeping earlier rows first on
ties (JS `Array.prototype.sort` is stable). -/
def insertRowDesc (x : String × String) : List (String × String) → List (String × String)
  | [] => [x]
  | y :: ys => if strLt x.2 y.2 then y :: insertRowDesc x ys else x :: y :: ys

/-- Stable descending sort by the formatted-time component
(`src/server.js:100`). -/
def sortByTimeDesc : List (String × String) → List (String × String)
  | [] => []
  | x :: xs => insertRowDesc x (sortByTimeDesc xs)

/-- `calculateVCStats` (`src/server.js:85-101`): accumulate per-user seconds,
then format and sort descending by the formatted string. -/
def calculateVCStats (history : List Event) (filterFn : Option (Event → Bool)) :
    List (String × String) :=
  sortByTimeDesc ((vcStatsLoop history filterFn history []).map
    (fun p => (p.1, formatDuration p.2)))

/-- The window predicate of `src/server.js:105` and `:111`:
`h => new Date(h.time) >= windowStart`. -/
def windowPred (t₀ : Timestamp) : Event → Bool :=
  fun h => decide (t₀ ≤ h.time)

/-- The three leaderboard endpoints (`src/server.js:103-118`), parameterised by
the window start they compute (`none` for `/leaderboard/all`). -/
def leaderboardFor (history : List Event) (w : Option Timestamp) : List (String × String) :=
  calculateVCStats history (w.map windowPred)

/-- The `filteredHistory` of the export endpoint (`src/server.js:134-143`). -/
def exportFiltered (history : List Event) (w : Option Timestamp) : List Event :=
  match w with
  | none => history
  | some t₀ => history.filter (windowPred t₀)

/-- The rows the export endpoint writes (`src/server.js:145-160`): the same
accumulation loop, but run over — and finding joins only within — the
window-filtered history, and emitted in insertion order without sorting. -/
def exportRows (history : List Event) (w : Option Timestamp) : List (String × String) :=
  (vcStatsLoop (exportFiltered history w) none (exportFiltered history w) []).map
    (fun p => (p.1, formatDuration p.2))

/-- The column headers of the export sheet (`src/server.js:129-132`). -/
def exportHeaders : List String := ["User", "VC Time"]

/-! ### Helper lemmas about the JS-object operations -/

theorem lookupKey_setKey {α : Type} (m : List (String × α)) (k u : String) (v : α) :
    lookupKey (setKey m k v) u = if k = u then some v else lookupKey m u := by
  induction m with
  | nil =>
      by_cases h : k = u <;> simp [setKey, lookupKey, h]
  | cons p rest ih =>
      obtain ⟨k₁, v₁⟩ := p
      by_cases h₁ : k₁ = k
      · subst h₁
        by_cases h₂ : k₁ = u <;> simp [setKey, lookupKey, h₂]
      · by_cases h₂ : k₁ = u
        · subst h₂
          have : ¬ k = k₁ := fun h => h₁ h.symm
          simp [setKey, lookupKey, h₁, this]
        · simp [setKey, lookupKey, h₁, h₂, ih]

theorem lookupKey_delKey {α : Type} (m : List (String × α)) (k u : String) :
    lookupKey (delKey m k) u = if k = u then none else lookupKey m u := by
  induction m with
  | nil =>
      by_cases h : k = u <;> simp [delKey, lookupKey, h]
  | cons p rest ih =>
      obtain ⟨k₁, v₁⟩ := p
      simp only [delKey, List.filter_cons] at ih ⊢
      by_cases h₁ : k₁ = k
      · have hcond : ((k₁, v₁).1 != k) = false := by simp [h₁]
        rw [hcond]
        simp only [Bool.false_eq_true, if_false, ih]
        by_cases h₂ : k = u
        · simp [h₂]
        · have h₃ : ¬ k₁ = u := by rw [h₁]; exact h₂
          simp [h₂, lookupKey, h₃]
      · have hcond : ((k₁, v₁).1 != k) = true := by simp [h₁]
        rw [hcond]
        simp only [if_true]
        by_cases h₂ : k₁ = u
        · have h₃ : ¬ k = u := fun h => h₁ (h₂.trans h.symm)
          simp [lookupKey, h₂, h₃]
        · simp [lookupKey, h₂, ih]

/-! ### Shape lemmas for the event processor -/

theorem active_process (a : Attendance) (r : Req) (t : Timestamp) :
    (processVoiceEvent a r t).active =
      if r.type = "join" then setKey a.active (jsKey r.user) ⟨r.channel, t⟩
      else if r.type = "leave" then delKey a.active (jsKey r.user)
      else a.active := by
  by_cases hj : r.type = "join"
  · simp [processVoiceEvent, hj]
  · by_cases hl : r.type = "leave"
    · cases hs : lookupKey a.active (jsKey r.user) <;>
        simp [processVoiceEvent, hj, hl, hs]
    · simp [processVoiceEvent, hj, hl]

theorem stats_process (a : Attendance) (r : Req) (t : Timestamp) :
    (processVoiceEvent a r t).stats =
      if r.type = "leave" then
        match lookupKey a.active (jsKey r.user) with
        | some sess =>
            setKey a.stats (jsKey r.user)
              ((lookupKey a.stats (jsKey r.user)).getD 0 + getSecondsDiff sess.joinedAt t)
        | none => a.stats
      else a.stats := by
  by_cases hj : r.type = "join"
  · have hl : ¬ r.type = "leave" := by rw [hj]; decide
    simp [processVoiceEvent, hj, hl]
  · by_cases hl : r.type = "leave"
    · cases hs : lookupKey a.active (jsKey r.user) <;>
        simp [processVoiceEvent, hj, hl, hs]
    · simp [processVoiceEvent, hj, hl]

theorem history_process (a : Attendance) (r : Req) (t : Timestamp) :
    (processVoiceEvent a r t).history =
      if (Event.mk r.type r.user r.channel t :: a.history).length > 100
      then (Event.mk r.type r.user r.channel t :: a.history).dropLast
      else Event.mk r.type r.user r.channel t :: a.history := by
  by_cases hj : r.type = "join"
  · simp [processVoiceEvent, hj]
  · by_cases hl : r.type = "leave"
    · cases hs : lookupKey a.active (jsKey r.user) <;>
        simp [processVoiceEvent, hj, hl, hs]
    · simp [processVoiceEvent, hj, hl]

theorem process_history_head (a : Attendance) (r : Req) (t : Timestamp) :
    (processVoiceEvent a r t).history.head? = some (Event.mk r.type r.user r.channel t) := by
  rw [history_process]
  split
  · next h =>
      have hne : a.history ≠ [] := by
        intro h0
        rw [h0] at h
        simp at h
      rw [List.dropLast_cons_of_ne_nil hne]
      rfl
  · rfl

/-! ### Concrete scenarios used by the claims -/

/-- A join request body `{type: "join", user, channel}`. -/
def reqJoin (u ch : String) : Req := ⟨"join", some u, some ch⟩

/-- A leave request body `{type: "leave", user, channel}`. -/
def reqLeave (u ch : String) : Req := ⟨"leave", some u, some ch⟩

/-- The example scenario of the spec: Join(Alice, 00:00:00), Leave(Alice, 00:05:00),
Join(Bob, 00:01:00), Leave(Bob, 00:02:00), timestamps in ms from 00:00:00. -/
def exampleEvents : List (Req × Timestamp) :=
  [(reqJoin "Alice" "VC", 0), (reqLeave "Alice" "VC", 300000),
   (reqJoin "Bob" "VC", 60000), (reqLeave "Bob" "VC", 120000)]

/-- A join at time 0, before the window start used below. -/
def winJoin : Event := ⟨"join", some "u", some "VC", 0⟩

/-- A leave at time 200000, inside the window used below. -/
def winLeave : Event := ⟨"leave", some "u", some "VC", 200000⟩

/-- A two-event history whose leave falls inside a window starting at 100000
while its matching join falls before it. -/
def winHist : List Event := [winLeave, winJoin]

/-- The state after POSTing `{type: "join", channel: "VC"}` with no `user`
field to an empty state. -/
def missingUserAfter : Attendance :=
  processVoiceEvent emptyAttendance ⟨"join", none, some "VC"⟩ 0

/-- Join(u, t=0), Leave(u, t=1000), Leave(u, t=5000): a join followed by a later
leave with an interleaving leave (but no interleaving join) for the same user. -/
def interleavedLeaveEvents : List (Req × Timestamp) :=
  [(reqJoin "u" "VC", 0), (reqLeave "u" "VC", 1000), (reqLeave "u" "VC", 5000)]

/-- C4: for the concrete sequence Join(Alice, 00:00:00), Leave(Alice, 00:05:00),
Join(Bob, 00:01:00), Leave(Bob, 00:02:00) processed in order into an empty
state, the all-time leaderboard is exactly
`[{Alice, "00:05:00"}, {Bob, "00:01:00"}]`, descending by duration. -/
theorem leaderboard_all_example :
    leaderboardFor (replay exampleEvents).history none =
      [("Alice", "00:05:00"), ("Bob", "00:01:00")] := by decide

/-- C8: `formatDuration` renders hours (uncapped), minutes mod 60 and seconds
mod 60, each zero-padded to at least two digits: the three spec values, plus a
100-hour duration showing hours are not capped at two digits, plus the general
rendering equation for any non-negative number of seconds. -/
theorem formatDuration_spec :
    formatDuration 3661 = "01:01:01" ∧
    formatDuration 59 = "00:00:59" ∧
    formatDuration 0 = "00:00:00" ∧
    formatDuration 360000 = "100:00:00" ∧
    ∀ n : Nat,
      formatDuration (Int.ofNat n) =
        padStart2 (toString (n / 3600)) ++ ":" ++
          padStart2 (toString (n % 3600 / 60)) ++ ":" ++ padStart2 (toString (n % 60)) := by
  refine ⟨by decide, by decide, by decide, by decide, fun n => ?_⟩
  have hdiv : ∀ m k : Nat, Int.fdiv (Int.ofNat m) (Int.ofNat k) = Int.ofNat (m / k) :=
    fun m k => (Int.ofNat_fdiv m k).symm
  have hmod : ∀ m k : Nat, Int.tmod (Int.ofNat m) (Int.ofNat k) = Int.ofNat (m % k) :=
    fun m k => (Int.ofNat_tmod m k).symm
  have hts : ∀ m : Nat, toString (Int.ofNat m) = toString m := fun m => rfl
  simp only [formatDuration]
  rw [show (3600 : Int) = Int.ofNat 3600 from rfl, show (60 : Int) = Int.ofNat 60 from rfl,
    hmod, hdiv, hmod, hdiv, hts, hts, hts]

/-- C6 (code behaviour at the failing input): POSTing a join whose `user` field
is missing is not rejected — the event is recorded in `history` with an
undefined user, and an `active` entry is created under the key "undefined", so
the state is mutated rather than left unchanged. -/
theorem missing_user_mutates_state :
    missingUserAfter.history = [⟨"join", none, some "VC", 0⟩] ∧
    lookupKey missingUserAfter.active "undefined" = some ⟨some "VC", 0⟩ ∧
    missingUserAfter ≠ emptyAttendance := by decide

/-- C10: the leaderboard applies the window predicate only to leave events and
pairs each passing leave with a join searched in the full history, so a leave
inside the window is credited its whole join-to-leave duration even when the
join lies before the window start; the export searches for the join only in
the window-filtered history, so on the same history and window it produces no
row at all. -/
theorem window_filter_asymmetry :
    windowPred 100000 winLeave = true ∧
    windowPred 100000 winJoin = false ∧
    joinFor winHist winLeave = some winJoin ∧
    leaderboardFor winHist (some 100000) =
      [("u", formatDuration (getSecondsDiff winJoin.time winLeave.time))] ∧
    exportRows winHist (some 100000) = [] := by decide

/-- C7 (counterexample): the export does not reproduce the leaderboard's
ranking order — on the spec's own example history the export emits
`[Bob, Alice]` (stats insertion order) while the leaderboard ranks
`[Alice, Bob]`; and for a windowed query the two do not even agree on the set
of users, since the export searches joins only in the filtered history. -/
theorem export_order_differs_cex :
    exportRows (replay exampleEvents).history none ≠
      leaderboardFor (replay exampleEvents).history none ∧
    (exportRows winHist (some 100000)).map Prod.fst ≠
      (leaderboardFor winHist (some 100000)).map Prod.fst := by decide

/-- C3 (counterexample): Join(u, t0=0) then Leave(u, t1=5000) with no
interleaving Join for u, but with an interleaving Leave at t=1000: the code
credits `stats[u]` with 1 second (the first leave closes the session), not
`elapsedSeconds(t0, t1) = 5`, so the claim as stated fails. -/
theorem stats_pair_interleaved_leave_cex :
    statsValOf (replay interleavedLeaveEvents) "u" = 1 ∧
    getSecondsDiff 0 5000 = 5 ∧
    statsValOf (replay interleavedLeaveEvents) "u" ≠
      statsValOf (replay []) "u" + getSecondsDiff 0 5000 := by decide

/-- C2: from any state with at most 100 history entries, processing any event
puts the new event at index 0, prepends it unchanged when the result stays
within the cap, drops exactly the oldest (last) entry when the length would
exceed 100, and in all cases preserves `len(history) <= 100`. -/
theorem history_cap_step (a : Attendance) (r : Req) (t : Timestamp)
    (hlen : a.history.length ≤ 100) :
    (processVoiceEvent a r t).history.head? = some (Event.mk r.type r.user r.channel t) ∧
    (a.history.length + 1 ≤ 100 →
      (processVoiceEvent a r t).history = Event.mk r.type r.user r.channel t :: a.history) ∧
    (a.history.length + 1 > 100 →
      (processVoiceEvent a r t).history =
        (Event.mk r.type r.user r.channel t :: a.history).dropLast) ∧
    (processVoiceEvent a r t).history.length ≤ 100 := by
  refine ⟨process_history_head a r t, ?_, ?_, ?_⟩
  · intro h
    rw [history_process, if_neg]
    simp only [List.length_cons]
    omega
  · intro h
    rw [history_process, if_pos]
    simp only [List.length_cons]
    omega
  · rw [history_process]
    split
    · next hgt =>
        rw [List.length_dropLast]
        simp only [List.length_cons]
        omega
    · next hle =>
        simp only [List.length_cons] at hle ⊢
        omega

/-- Witness for C2 at a concrete input: processing a join into the empty state. -/
theorem history_cap_step_witness :
    emptyAttendance.history.length ≤ 100 ∧
    (processVoiceEvent emptyAttendance (reqJoin "a" "VC") 0).history =
      [Event.mk "join" (some "a") (some "VC") 0] ∧
    (processVoiceEvent emptyAttendance (reqJoin "a" "VC") 0).history.length ≤ 100 :=
  ⟨by decide,
   (history_cap_step emptyAttendance (reqJoin "a" "VC") 0 (by decide)).2.1 (by decide),
   (history_cap_step emptyAttendance (reqJoin "a" "VC") 0 (by decide)).2.2.2⟩

/-! ### Permutation of the sort, and join-search lemmas -/

theorem insertRowDesc_perm (x : String × String) (l : List (String × String)) :
    List.Perm (insertRowDesc x l) (x :: l) := by
  induction l with
  | nil => exact List.Perm.refl _
  | cons y ys ih =>
      by_cases h : strLt x.2 y.2 = true
      · simp only [insertRowDesc]
        rw [if_pos h]
        exact (ih.cons y).trans (List.Perm.swap x y ys)
      · simp only [insertRowDesc]
        rw [if_neg h]

theorem sortByTimeDesc_perm (l : List (String × String)) :
    List.Perm (sortByTimeDesc l) l := by
  induction l with
  | nil => exact List.Perm.refl _
  | cons x xs ih => exact (insertRowDesc_perm x (sortByTimeDesc xs)).trans (ih.cons x)

theorem joinFor_cons_nonjoin (e : Event) (he : e.type ≠ "join") (full : List Event)
    (h : Event) : joinFor (e :: full) h = joinFor full h := by
  unfold joinFor
  have hp : (e.user == h.user && e.type == "join" && decide (e.time ≤ h.time)) = false := by
    have h₁ : (e.type == "join") = false := beq_eq_false_iff_ne.mpr he
    simp [h₁]
  simp [List.find?, hp]

theorem vcStatsLoop_cons_full (e : Event) (he : e.type ≠ "join") (full : List Event)
    (filterFn : Option (Event → Bool)) (iter : List Event) (s : List (String × Int)) :
    vcStatsLoop (e :: full) filterFn iter s = vcStatsLoop full filterFn iter s := by
  induction iter generalizing s with
  | nil => rfl
  | cons h rest ih =>
      simp only [vcStatsLoop, joinFor_cons_nonjoin e he full h]
      exact ih _

/-- C5: processing a Leave for a user with no active session leaves `stats`
unchanged, still records the Leave at the front of `history`, and, whenever
that Leave has no matching Join in the history buffer it sits in, it
contributes nothing to any leaderboard computation (for every window filter). -/
theorem unmatched_leave_noop (a : Attendance) (u : String) (ch : Option String)
    (t : Timestamp) (hactive : lookupKey a.active u = none) :
    (processVoiceEvent a (Req.mk "leave" (some u) ch) t).stats = a.stats ∧
    (processVoiceEvent a (Req.mk "leave" (some u) ch) t).history.head? =
      some (Event.mk "leave" (some u) ch t) ∧
    ∀ (hist : List Event) (filterFn : Option (Event → Bool)),
      joinFor (Event.mk "leave" (some u) ch t :: hist) (Event.mk "leave" (some u) ch t) =
        none →
      calculateVCStats (Event.mk "leave" (some u) ch t :: hist) filterFn =
        calculateVCStats hist filterFn := by
  refine ⟨?_, process_history_head a _ t, ?_⟩
  · rw [stats_process]
    simp [jsKey, hactive]
  · intro hist filterFn hjoin
    unfold calculateVCStats
    have hl : (Event.mk "leave" (some u) ch t).type ≠ "join" :=
      fun h => (by decide : ("leave" : String) ≠ "join") h
    have hstep :
        vcStatsLoop (Event.mk "leave" (some u) ch t :: hist) filterFn
            (Event.mk "leave" (some u) ch t :: hist) [] =
          vcStatsLoop hist filterFn hist [] := by
      rw [show vcStatsLoop (Event.mk "leave" (some u) ch t :: hist) filterFn
            (Event.mk "leave" (some u) ch t :: hist) [] =
          vcStatsLoop (Event.mk "leave" (some u) ch t :: hist) filterFn hist
            (if (Event.mk "leave" (some u) ch t).type == "leave" &&
                passesFilter filterFn (Event.mk "leave" (some u) ch t) then
              match joinFor (Event.mk "leave" (some u) ch t :: hist)
                  (Event.mk "leave" (some u) ch t) with
              | some j =>
                  setKey [] (jsKey (Event.mk "leave" (some u) ch t).user)
                    ((lookupKey [] (jsKey (Event.mk "leave" (some u) ch t).user)).getD 0 +
                      getSecondsDiff j.time (Event.mk "leave" (some u) ch t).time)
              | none => []
            else []) from rfl]
      rw [hjoin]
      simp only [ite_self]
      exact vcStatsLoop_cons_full _ hl hist filterFn hist []
    rw [hstep]

/-- Witness for C5: a Leave for user "x" with no session, on a history whose
only entry is a Join of a different user. -/
theorem unmatched_leave_noop_witness :
    (processVoiceEvent emptyAttendance (Req.mk "leave" (some "x") (some "VC")) 1000).stats =
      emptyAttendance.stats ∧
    (processVoiceEvent emptyAttendance (Req.mk "leave" (some "x") (some "VC")) 1000).history.head? =
      some (Event.mk "leave" (some "x") (some "VC") 1000) ∧
    calculateVCStats
        (Event.mk "leave" (some "x") (some "VC") 1000 ::
          [Event.mk "join" (some "y") (some "VC") 0]) none =
      calculateVCStats [Event.mk "join" (some "y") (some "VC") 0] none :=
  ⟨(unmatched_leave_noop emptyAttendance "x" (some "VC") 1000 (by decide)).1,
   (unmatched_leave_noop emptyAttendance "x" (some "VC") 1000 (by decide)).2.1,
   (unmatched_leave_noop emptyAttendance "x" (some "VC") 1000 (by decide)).2.2
     [Event.mk "join" (some "y") (some "VC") 0] none (by decide)⟩

/-- C7 (amended): the export sheet has the fixed headers `User` and `VC Time`,
and for the all-time window its rows are exactly the leaderboard's rows as a
multiset — same users, same formatted durations, one row per user — though
emitted in stats-insertion order rather than the leaderboard's ranking. -/
theorem export_matches_leaderboard_as_multiset :
    exportHeaders = ["User", "VC Time"] ∧
    ∀ history : List Event,
      List.Perm (exportRows history none) (leaderboardFor history none) := by
  refine ⟨rfl, fun history => ?_⟩
  exact (sortByTimeDesc_perm
    ((vcStatsLoop history none history []).map (fun p => (p.1, formatDuration p.2)))).symm

/-! ### Replay lemmas -/

/-- The most recent processed request mentioning user `u` (JS key coercion
included), if any. -/
def latestReqFor (l : List (Req × Timestamp)) (u : String) : Option Req :=
  (l.reverse.find? (fun e => jsKey e.1.user == u)).map Prod.fst

theorem replay_append_one (l : List (Req × Timestamp)) (e : Req × Timestamp) :
    replay (l ++ [e]) = processVoiceEvent (replay l) e.1 e.2 := by
  simp [replay, replayFrom, List.foldl_append]

theorem latestReqFor_append_one (l : List (Req × Timestamp)) (e : Req × Timestamp)
    (u : String) :
    latestReqFor (l ++ [e]) u =
      if jsKey e.1.user = u then some e.1 else latestReqFor l u := by
  unfold latestReqFor
  rw [List.reverse_append]
  simp only [List.reverse_singleton, List.singleton_append]
  by_cases hu : jsKey e.1.user = u
  · rw [if_pos hu, List.find?_cons_of_pos]
    · rfl
    · exact beq_iff_eq.mpr hu
  · rw [if_neg hu, List.find?_cons_of_neg]
    simp [hu]

/-- C1: after replaying any sequence of join/leave requests from the empty
state, `active` holds a user exactly when the most recent processed request
for that user was a join — in particular a processed leave always removes the
user, session or not. -/
theorem active_iff_latest_join (l : List (Req × Timestamp))
    (hty : ∀ e ∈ l, e.1.type = "join" ∨ e.1.type = "leave") (u : String) :
    lookupKey (replay l).active u ≠ none ↔
      (latestReqFor l u).map Req.type = some "join" := by
  induction l using List.reverseRecOn with
  | nil => simp [replay, replayFrom, emptyAttendance, lookupKey, latestReqFor]
  | append_singleton l e ih =>
      have hty₂ : ∀ x ∈ l, x.1.type = "join" ∨ x.1.type = "leave" :=
        fun x hx => hty x (List.mem_append_left _ hx)
      have hte : e.1.type = "join" ∨ e.1.type = "leave" :=
        hty e (List.mem_append_right _ (List.mem_singleton_self e))
      rw [replay_append_one, latestReqFor_append_one, active_process]
      by_cases hu : jsKey e.1.user = u
      · rcases hte with hj | hlv
        · rw [if_pos hj, lookupKey_setKey, if_pos hu, if_pos hu]
          simp [hj]
        · have hnj : ¬ e.1.type = "join" := by
            rw [hlv]; decide
          rw [if_neg hnj, if_pos hlv, lookupKey_delKey, if_pos hu, if_pos hu]
          simp [hlv]
      · rcases hte with hj | hlv
        · rw [if_pos hj, lookupKey_setKey, if_neg hu, if_neg hu]
          exact ih hty₂
        · have hnj : ¬ e.1.type = "join" := by
            rw [hlv]; decide
          rw [if_neg hnj, if_pos hlv, lookupKey_delKey, if_neg hu, if_neg hu]
          exact ih hty₂

/-- Witness for C1: after Join(a, 0) then Leave(a, 1000), user "a" is not in
`active` and the latest request for "a" is not a join. -/
theorem active_iff_latest_join_witness :
    (lookupKey (replay [(reqJoin "a" "VC", 0), (reqLeave "a" "VC", 1000)]).active "a" ≠ none ↔
      (latestReqFor [(reqJoin "a" "VC", 0), (reqLeave "a" "VC", 1000)] "a").map Req.type =
        some "join") :=
  active_iff_latest_join [(reqJoin "a" "VC", 0), (reqLeave "a" "VC", 1000)] (by decide) "a"

/-! ### Events of other users leave a user's stats and session alone -/

theorem stats_active_other (a : Attendance) (r : Req) (t : Timestamp) (u : String)
    (hu : jsKey r.user ≠ u) :
    statsValOf (processVoiceEvent a r t) u = statsValOf a u ∧
    lookupKey (processVoiceEvent a r t).active u = lookupKey a.active u := by
  constructor
  · unfold statsValOf
    rw [stats_process]
    by_cases hl : r.type = "leave"
    · rw [if_pos hl]
      cases hs : lookupKey a.active (jsKey r.user) with
      | none => rfl
      | some sess => rw [lookupKey_setKey, if_neg hu]
    · rw [if_neg hl]
  · rw [active_process]
    by_cases hj : r.type = "join"
    · rw [if_pos hj, lookupKey_setKey, if_neg hu]
    · by_cases hl : r.type = "leave"
      · rw [if_neg hj, if_pos hl, lookupKey_delKey, if_neg hu]
      · rw [if_neg hj, if_neg hl]

theorem replayFrom_other (l : List (Req × Timestamp)) (a : Attendance) (u : String)
    (h : ∀ e ∈ l, jsKey e.1.user ≠ u) :
    statsValOf (replayFrom a l) u = statsValOf a u ∧
    lookupKey (replayFrom a l).active u = lookupKey a.active u := by
  induction l generalizing a with
  | nil => exact ⟨rfl, rfl⟩
  | cons e rest ih =>
      have he := h e (List.mem_cons_self e rest)
      have hrest : ∀ x ∈ rest, jsKey x.1.user ≠ u :=
        fun x hx => h x (List.mem_cons_of_mem e hx)
      have hstep := stats_active_other a e.1 e.2 u he
      have hih := ih (processVoiceEvent a e.1 e.2) hrest
      exact ⟨hih.1.trans hstep.1, hih.2.trans hstep.2⟩

/-- C3 (amended): from any state, a Join for `u` at `t0`, then any events none
of which concern `u`, then a Leave for `u` at `t1`, increase `stats[u]` by
exactly `getSecondsDiff t0 t1` (a prior absent entry counting as 0); and when
that Join/Leave pair is the entire activity from the empty state, the all-time
leaderboard reports exactly that duration for `u`. -/
theorem stats_join_leave_pair_amended (a : Attendance) (u : String)
    (ch ch₂ : Option String) (t₀ t₁ : Timestamp) (mid : List (Req × Timestamp))
    (hmid : ∀ e ∈ mid, jsKey e.1.user ≠ u) :
    statsValOf
        (processVoiceEvent
          (replayFrom (processVoiceEvent a (Req.mk "join" (some u) ch) t₀) mid)
          (Req.mk "leave" (some u) ch₂) t₁) u =
      statsValOf a u + getSecondsDiff t₀ t₁ ∧
    (t₀ ≤ t₁ →
      calculateVCStats
          (replay [(Req.mk "join" (some u) ch, t₀),
                   (Req.mk "leave" (some u) ch₂, t₁)]).history none =
        [(u, formatDuration (getSecondsDiff t₀ t₁))]) := by
  constructor
  · have hkeyJ : jsKey (Req.mk "join" (some u) ch).user = u := rfl
    have hkeyL : jsKey (Req.mk "leave" (some u) ch₂).user = u := rfl
    have h₁a : lookupKey (processVoiceEvent a (Req.mk "join" (some u) ch) t₀).active u =
        some ⟨ch, t₀⟩ := by
      rw [active_process, if_pos rfl, lookupKey_setKey, if_pos hkeyJ]
    have h₁s : statsValOf (processVoiceEvent a (Req.mk "join" (some u) ch) t₀) u =
        statsValOf a u := by
      unfold statsValOf
      rw [stats_process, if_neg (by decide : ¬ ("join" : String) = "leave")]
    obtain ⟨h₂s, h₂a⟩ :=
      replayFrom_other mid (processVoiceEvent a (Req.mk "join" (some u) ch) t₀) u hmid
    unfold statsValOf
    rw [stats_process, if_pos rfl]
    have hlook :
        lookupKey
            (replayFrom (processVoiceEvent a (Req.mk "join" (some u) ch) t₀) mid).active
            (jsKey (Req.mk "leave" (some u) ch₂).user) = some ⟨ch, t₀⟩ :=
      (hkeyL ▸ h₂a).trans h₁a
    rw [hlook, lookupKey_setKey, if_pos hkeyL, hkeyL]
    simp only [Option.getD_some]
    unfold statsValOf at h₂s h₁s
    rw [h₂s, h₁s]
  · intro hle
    have hhist :
        (replay [(Req.mk "join" (some u) ch, t₀),
                 (Req.mk "leave" (some u) ch₂, t₁)]).history =
          [Event.mk "leave" (some u) ch₂ t₁, Event.mk "join" (some u) ch t₀] := by
      simp [replay, replayFrom, processVoiceEvent, emptyAttendance, jsKey, lookupKey,
        setKey, delKey]
    rw [hhist]
    simp [calculateVCStats, vcStatsLoop, joinFor, passesFilter, List.find?, jsKey, setKey,
      lookupKey, sortByTimeDesc, insertRowDesc, hle]

/-- Witness for C3 (amended): Join(u, 0), an unrelated Join(v, 500), then
Leave(u, 7000): stats[u] gains 7 seconds, and the clean pair alone yields the
leaderboard row (u, 00:00:07). -/
theorem stats_join_leave_pair_amended_witness :
    statsValOf
        (processVoiceEvent
          (replayFrom
            (processVoiceEvent emptyAttendance (Req.mk "join" (some "u") (some "VC")) 0)
            [(Req.mk "join" (some "v") (some "VC"), 500)])
          (Req.mk "leave" (some "u") (some "VC")) 7000) "u" =
      statsValOf emptyAttendance "u" + getSecondsDiff 0 7000 ∧
    calculateVCStats
        (replay [(Req.mk "join" (some "u") (some "VC"), 0),
                 (Req.mk "leave" (some "u") (some "VC"), 7000)]).history none =
      [("u", formatDuration (getSecondsDiff 0 7000))] :=
  ⟨(stats_join_leave_pair_amended emptyAttendance "u" (some "VC") (some "VC") 0 7000
      [(Req.mk "join" (some "v") (some "VC"), 500)] (by decide)).1,
   (stats_join_leave_pair_amended emptyAttendance "u" (some "VC") (some "VC") 0 7000
      [(Req.mk "join" (some "v") (some "VC"), 500)] (by decide)).2 (by decide)⟩

/-! ### Monotonicity of stats under a non-decreasing server clock -/

/-- The server-assigned timestamps of a request sequence are non-decreasing,
starting from a lower bound `t`.  This is how `new Date()` behaves across the
sequential processing of events. -/
def timesMono : Timestamp → List (Req × Timestamp) → Bool
  | _, [] => true
  | t, e :: rest => decide (t ≤ e.2) && timesMono e.2 rest

/-- The timestamp of the last request, or the lower bound if there is none. -/
def lastTime : Timestamp → List (Req × Timestamp) → Timestamp
  | t, [] => t
  | _, e :: rest => lastTime e.2 rest

/-- Every active session was opened no later than `t`. -/
def ActiveBounded (a : Attendance) (t : Timestamp) : Prop :=
  ∀ u s, lookupKey a.active u = some s → s.joinedAt ≤ t

theorem statsValOf_process_ge (a : Attendance) (r : Req) (t t₂ : Timestamp)
    (hb : ActiveBounded a t) (htt : t ≤ t₂) (u : String) :
    statsValOf a u ≤ statsValOf (processVoiceEvent a r t₂) u := by
  unfold statsValOf
  rw [stats_process]
  by_cases hl : r.type = "leave"
  · rw [if_pos hl]
    cases hs : lookupKey a.active (jsKey r.user) with
    | none => exact le_refl _
    | some sess =>
        rw [lookupKey_setKey]
        by_cases hu : jsKey r.user = u
        · rw [if_pos hu]
          simp only [Option.getD_some]
          rw [hu]
          have hjoined : sess.joinedAt ≤ t₂ := (hb _ _ hs).trans htt
          have hnn : 0 ≤ getSecondsDiff sess.joinedAt t₂ :=
            Int.fdiv_nonneg (Int.sub_nonneg.mpr hjoined) (by decide)
          omega
        · rw [if_neg hu]
  · rw [if_neg hl]

theorem activeBounded_process (a : Attendance) (r : Req) (t t₂ : Timestamp)
    (hb : ActiveBounded a t) (htt : t ≤ t₂) :
    ActiveBounded (processVoiceEvent a r t₂) t₂ := by
  intro u s hs
  rw [active_process] at hs
  by_cases hj : r.type = "join"
  · rw [if_pos hj, lookupKey_setKey] at hs
    by_cases hu : jsKey r.user = u
    · rw [if_pos hu] at hs
      cases hs
      exact le_refl _
    · rw [if_neg hu] at hs
      exact (hb u s hs).trans htt
  · by_cases hl : r.type = "leave"
    · rw [if_neg hj, if_pos hl, lookupKey_delKey] at hs
      by_cases hu : jsKey r.user = u
      · rw [if_pos hu] at hs
        cases hs
      · rw [if_neg hu] at hs
        exact (hb u s hs).trans htt
    · rw [if_neg hj, if_neg hl] at hs
      exact (hb u s hs).trans htt

theorem statsValOf_replayFrom_ge (l : List (Req × Timestamp)) (a : Attendance)
    (t : Timestamp) (hb : ActiveBounded a t) (hm : timesMono t l = true) (u : String) :
    statsValOf a u ≤ statsValOf (replayFrom a l) u := by
  induction l generalizing a t with
  | nil => exact le_refl _
  | cons e rest ih =>
      rw [timesMono, Bool.and_eq_true, decide_eq_true_eq] at hm
      exact (statsValOf_process_ge a e.1 t e.2 hb hm.1 u).trans
        (ih (processVoiceEvent a e.1 e.2) e.2
          (activeBounded_process a e.1 t e.2 hb hm.1) hm.2)

theorem activeBounded_replayFrom (l : List (Req × Timestamp)) (a : Attendance)
    (t : Timestamp) (hb : ActiveBounded a t) (hm : timesMono t l = true) :
    ActiveBounded (replayFrom a l) (lastTime t l) := by
  induction l generalizing a t with
  | nil => exact hb
  | cons e rest ih =>
      rw [timesMono, Bool.and_eq_true, decide_eq_true_eq] at hm
      exact ih (processVoiceEvent a e.1 e.2) e.2
        (activeBounded_process a e.1 t e.2 hb hm.1) hm.2

theorem timesMono_append (l₁ l₂ : List (Req × Timestamp)) (t : Timestamp) :
    timesMono t (l₁ ++ l₂) = (timesMono t l₁ && timesMono (lastTime t l₁) l₂) := by
  induction l₁ generalizing t with
  | nil => simp [timesMono, lastTime]
  | cons e rest ih =>
      rw [List.cons_append,
        show timesMono t (e :: (rest ++ l₂)) =
          (decide (t ≤ e.2) && timesMono e.2 (rest ++ l₂)) from rfl,
        ih,
        show timesMono t (e :: rest) = (decide (t ≤ e.2) && timesMono e.2 rest) from rfl,
        show lastTime t (e :: rest) = lastTime e.2 rest from rfl,
        Bool.and_assoc]

/-- C9: (a) when server-assigned timestamps are non-decreasing, every user's
`stats` entry is non-decreasing along the replay — a processed Leave credits
`getSecondsDiff(joinedAt, now)`, which is then non-negative; (b) a processing
step can change `stats[u]` only if the event is a Leave for `u` and `u` holds
an active session. -/
theorem stats_monotone :
    (∀ (t₀ : Timestamp) (l : List (Req × Timestamp)), timesMono t₀ l = true →
      ∀ (n : Nat) (u : String),
        statsValOf (replay (l.take n)) u ≤ statsValOf (replay l) u) ∧
    (∀ (a : Attendance) (r : Req) (t : Timestamp) (u : String),
      statsValOf (processVoiceEvent a r t) u ≠ statsValOf a u →
      r.type = "leave" ∧ jsKey r.user = u ∧ lookupKey a.active u ≠ none) := by
  constructor
  · intro t₀ l hm n u
    have hsplit : l = l.take n ++ l.drop n := (List.take_append_drop n l).symm
    have hm₂ : timesMono t₀ (l.take n ++ l.drop n) = true := by rw [← hsplit]; exact hm
    rw [timesMono_append, Bool.and_eq_true] at hm₂
    have hb : ActiveBounded (replay (l.take n)) (lastTime t₀ (l.take n)) :=
      activeBounded_replayFrom (l.take n) emptyAttendance t₀
        (fun u s hs => by simp [emptyAttendance, lookupKey] at hs) hm₂.1
    have hstep :=
      statsValOf_replayFrom_ge (l.drop n) (replay (l.take n)) (lastTime t₀ (l.take n))
        hb hm₂.2 u
    have happ : ∀ (a : Attendance) (l₁ l₂ : List (Req × Timestamp)),
        replayFrom a (l₁ ++ l₂) = replayFrom (replayFrom a l₁) l₂ := by
      intro a l₁ l₂
      simp [replayFrom, List.foldl_append]
    have hrepl : replayFrom (replay (l.take n)) (l.drop n) = replay l := by
      unfold replay
      rw [← happ, List.take_append_drop]
    rw [hrepl] at hstep
    exact hstep
  · intro a r t u hne
    unfold statsValOf at hne
    rw [stats_process] at hne
    by_cases hl : r.type = "leave"
    · rw [if_pos hl] at hne
      cases hs : lookupKey a.active (jsKey r.user) with
      | none => rw [hs] at hne; exact absurd rfl hne
      | some sess =>
          rw [hs, lookupKey_setKey] at hne
          by_cases hu : jsKey r.user = u
          · refine ⟨hl, hu, ?_⟩
            rw [← hu, hs]
            exact fun h => Option.noConfusion h
          · rw [if_neg hu] at hne
            exact absurd rfl hne
    · rw [if_neg hl] at hne
      exact absurd rfl hne

/-- Witness for C9: a chronological Join(a,0), Leave(a,5000) sequence has
non-decreasing stats for "a" across the prefix, and a Leave for "b" holding an
active session is the only way a step changes "b"'s stats. -/
theorem stats_monotone_witness :
    statsValOf (replay ([(reqJoin "a" "VC", 0), (reqLeave "a" "VC", 5000)].take 1)) "a" ≤
      statsValOf (replay [(reqJoin "a" "VC", 0), (reqLeave "a" "VC", 5000)]) "a" ∧
    ((reqLeave "b" "VC").type = "leave" ∧ jsKey (reqLeave "b" "VC").user = "b" ∧
      lookupKey (Attendance.mk [] [("b", ⟨some "VC", 0⟩)] []).active "b" ≠ none) :=
  ⟨stats_monotone.1 0 [(reqJoin "a" "VC", 0), (reqLeave "a" "VC", 5000)] (by decide) 1 "a",
   stats_monotone.2 (Attendance.mk [] [("b", ⟨some "VC", 0⟩)] []) (reqLeave "b" "VC") 5000 "b"
     (by decide)⟩

end VCAttend
